import Mathlib

/-!
# Verification of the `anno` repository against its specification

The repository holds two Python scripts:

* `src/scripts/extract_trafilatura.py` — an HTML-to-text extraction filter
  reading an HTML string from stdin and printing one JSON value to stdout;
* `src/examples/academic-digest.py` — a demo client that POSTs a document
  batch to `/v1/semantic/index` and a query to `/v1/semantic/rag`.

The semantic service itself (Document Store, Vector Index, Retriever,
RAG Orchestrator) is designed only in the specification; the parts of it
that the claims need are modelled here from the spec's words and are
marked as such in their doc comments.

The embedding below is shallow: Python dict/list/string/int/None values
become an inductive `Json`; `print(json.dumps(v))` is modelled as emitting
the value `v`; an operation that can raise returns an `Option`/`PyResult`.
-/

namespace Anno

/-- JSON values as produced by the scripts' `json` usage: objects keep the
insertion order of their keys, numbers in the requests are integers. -/
inductive Json where
  | null : Json
  | str (s : String) : Json
  | num (n : Int) : Json
  | arr (elems : List Json) : Json
  | obj (fields : List (String × Json)) : Json

/-- Python `d[key]` on a JSON object: `some` the value, `none` when the key
is absent (a `KeyError`) or the value is not an object (a `TypeError`). -/
def Json.lookup (j : Json) (key : String) : Option Json :=
  match j with
  | .obj fields => List.lookup key fields
  | _ => none

/-- The keys of a JSON object, in insertion order. -/
def Json.keys (j : Json) : List String :=
  match j with
  | .obj fields => fields.map (fun kv => kv.1)
  | _ => []

namespace ExtractTrafilatura

/-- Outcome of calling a Python function that may raise: a value, or an
exception (the script's `except Exception` arms only distinguish these). -/
inductive PyResult (α : Type) where
  | ok (val : α) : PyResult α
  | exn : PyResult α
deriving DecidableEq, Repr

/-- The fields of the dict returned by `trafilatura.bare_extraction` that
the script reads with `.get`; `none` models an absent key (Python `None`). -/
structure BareMeta where
  title : Option String
  author : Option String
  date : Option String
  lang : Option String
deriving DecidableEq, Repr

/-- The behaviour of the imported `trafilatura` library on each input:
`extract` returns `None` or a string, or raises; `bare_extraction` returns
`None` or a metadata dict, or raises. -/
structure Trafilatura where
  extract : String → PyResult (Option String)
  bare_extraction : String → PyResult (Option BareMeta)

/-- A call the script makes into the trafilatura library. -/
inductive LibCall where
  | extractCall (html : String) : LibCall
  | bareCall (html : String) : LibCall
deriving DecidableEq, Repr

/-- `meta.get(k)`: `None` becomes JSON `null`, a string stays a string
(how `json.dumps` serialises the value placed in the output dict). -/
def jsonOfOpt : Option String → Json
  | none => Json.null
  | some s => Json.str s

/-- The empty dict that `or {}` substitutes when `bare_extraction`
returns a falsy value: every `.get` on it yields `None`. -/
def emptyMeta : BareMeta := ⟨none, none, none, none⟩

/-- Embeds `main()` of `src/scripts/extract_trafilatura.py`.

Input: the library's behaviour and the full stdin contents `html`.
Output: the list of library calls made, and the JSON values printed to
stdout (one per `print(json.dumps(...))`).

Mirrors the source line by line: `if not html` (true exactly for the empty
string, since `sys.stdin.read()` yields a `str`) prints `{}` and returns;
`trafilatura.extract(...)` raising or returning `None` prints `{}`;
otherwise `bare_extraction(html) or {}` supplies the metadata dict (an
exception anywhere inside the `try` is caught and prints `{}`), and the
output dict is built with keys `title, text, author, date, language` in
that order, `text` holding the string `extract` returned. -/
def mainRun (tr : Trafilatura) (html : String) : List LibCall × List Json :=
  if html = "" then
    ([], [Json.obj []])
  else
    match tr.extract html with
    | .exn => ([.extractCall html], [Json.obj []])
    | .ok none => ([.extractCall html], [Json.obj []])
    | .ok (some downloaded) =>
      match tr.bare_extraction html with
      | .exn => ([.extractCall html, .bareCall html], [Json.obj []])
      | .ok metaOpt =>
        let m := metaOpt.getD emptyMeta
        ([.extractCall html, .bareCall html],
         [Json.obj [("title", jsonOfOpt m.title),
                    ("text", Json.str downloaded),
                    ("author", jsonOfOpt m.author),
                    ("date", jsonOfOpt m.date),
                    ("language", jsonOfOpt m.lang)]])

/-- The values the script prints to stdout. -/
def mainOutput (tr : Trafilatura) (html : String) : List Json :=
  (mainRun tr html).2

/-- Embeds the whole script including the module level: if the
`import trafilatura` fails (`imported = none`), the `except` arm prints
`{}` and calls `sys.exit(0)`; otherwise `main()` runs and the script ends
normally (exit status 0). Output: printed JSON values and exit status. -/
def programRun (imported : Option Trafilatura) (html : String) :
    List Json × Nat :=
  match imported with
  | none => ([Json.obj []], 0)
  | some tr => (mainOutput tr html, 0)

/-- A library behaviour whose `extract` always raises (used to instantiate
theorems at a concrete failing input). -/
def trExnAlways : Trafilatura :=
  { extract := fun _ => .exn
    bare_extraction := fun _ => .ok none }

/-- A library behaviour that succeeds with fixed text and metadata (used to
instantiate theorems at a concrete succeeding input). -/
def trOkFixed : Trafilatura :=
  { extract := fun _ => .ok (some "Body text.")
    bare_extraction := fun _ =>
      .ok (some ⟨some "A Title", none, some "2024-01-01", some "en"⟩) }

end ExtractTrafilatura

namespace AcademicDigest

/-- Embeds the module-level constant `DOCUMENTS` of
`src/examples/academic-digest.py` as the JSON value `json.dumps` would
serialise (dict insertion order preserved): the body of the demo's
`POST /v1/semantic/index` request. -/
def DOCUMENTS : Json :=
  .obj [("documents", .arr
    [.obj [("id", .str "paper-llm"),
           ("text", .str "This paper explores retrieval augmented language models for domain adaptation."),
           ("metadata", .obj [("url", .str "https://papers.example.com/rag")])],
     .obj [("id", .str "paper-eval"),
           ("text", .str "We propose evaluation metrics for agent coordination in multi-step tasks."),
           ("metadata", .obj [("url", .str "https://papers.example.com/eval")])]])]

/-- Embeds the dict literal the demo's `main` passes to
`post_json("/v1/semantic/rag", ...)`: the body of the RAG request. -/
def ragRequest : Json :=
  .obj [("query", .str "Summarize recent advances in retrieval augmented language models"),
        ("sessionId", .str "academic-session"),
        ("k", .num 2),
        ("summaryLevels", .arr [.str "paragraph"])]

/-- Modelled from the spec: a JSON object all of whose values are strings
(the documented `metadata: {string: string}` mapping). -/
def specStringMap : Json → Bool
  | .obj fields => fields.all (fun kv =>
      match kv.2 with
      | .str _ => true
      | _ => false)
  | _ => false

/-- Modelled from the spec: one element of the documented index request,
`{"id": string, "text": string, "metadata": {string: string}}`
with exactly those keys. -/
def specDocumentShape : Json → Bool
  | .obj [("id", .str _), ("text", .str _), ("metadata", m)] => specStringMap m
  | _ => false

/-- Modelled from the spec: the documented `POST /v1/semantic/index`
request shape `{"documents": [...]}`. -/
def specIndexRequestShape : Json → Bool
  | .obj [("documents", .arr docs)] => docs.all specDocumentShape
  | _ => false

/-- Modelled from the spec: the documented `POST /v1/semantic/rag` request
shape, keys exactly `query, sessionId, k, summaryLevels` with a string
query and session id, integer `k` and a list of string summary levels. -/
def specRagRequestShape : Json → Bool
  | .obj [("query", .str _), ("sessionId", .str _), ("k", .num _),
          ("summaryLevels", .arr levels)] =>
      levels.all (fun l =>
        match l with
        | .str _ => true
        | _ => false)
  | _ => false

/-- The given field of each document of an index request body, in order. -/
def docField (body : Json) (field : String) : List (Option Json) :=
  match body.lookup "documents" with
  | some (.arr docs) => docs.map (fun d => d.lookup field)
  | _ => []

/-- The `"url"` entry of each document's metadata, in order. -/
def docMetaUrl (body : Json) : List (Option Json) :=
  match body.lookup "documents" with
  | some (.arr docs) =>
      docs.map (fun d =>
        match d.lookup "metadata" with
        | some m => m.lookup "url"
        | none => none)
  | _ => []

/-- The phrase `pat` occurs inside `s`. -/
def hasPhrase (s pat : String) : Prop :=
  ∃ pre post, s = pre ++ (pat ++ post)

/-- The integer `k` of a RAG request body. -/
def ragK (body : Json) : Option Int :=
  match body.lookup "k" with
  | some (.num n) => some n
  | _ => none

/-- The `summaryLevels` list of a RAG request body. -/
def ragSummaryLevels (body : Json) : Option (List Json) :=
  match body.lookup "summaryLevels" with
  | some (.arr levels) => some levels
  | _ => none

/-- What the citation-printing loop body extracts from one citation dict
`cite`: `cite['id']` and `cite['score']` raise `KeyError` when absent
(modelled as `none`), `f"...:.2f"` raises when the score is not a number,
and `cite.get('url', '')` substitutes the default `""` when `url` is
absent and never raises. The f-string text around the three parts carries
no failure and is elided; the score's `:.2f` rendering of the integer
score `n` is `toString n ++ ".00"`. -/
def citationRow (cite : Json) : Option (Json × String × Json) := do
  let idv ← cite.lookup "id"
  let scorev ← cite.lookup "score"
  let scoreText ←
    match scorev with
    | .num n => some (toString n ++ ".00")
    | _ => none
  let url := (cite.lookup "url").getD (Json.str "")
  pure (idv, scoreText, url)

/-- The citation-printing loop of the demo's `main`: one row per element
of `rag["citations"]`, `none` as soon as one iteration raises. -/
def printCitations (cites : List Json) : Option (List (Json × String × Json)) :=
  cites.mapM citationRow

/-- A citation list with `id` and `score` but no `url` field (used to
instantiate the citation-loop theorem at a concrete input). -/
def demoCitations : List Json :=
  [Json.obj [("id", Json.str "paper-llm"), ("score", Json.num 1)]]

end AcademicDigest

namespace Core

/-!
The semantic service itself has no code in the repository — only the spec
(§2–§4) designs it. The definitions in this section are therefore modelled
from the spec's words, as their doc comments state, and the theorems about
them settle the spec's self-claimed properties (§8).
-/

/-- Modelled from the spec (§3): an embedding is a fixed-dimension numeric
vector; the repository contains no Embedder, so the vector entries are
rationals and the Embedder is passed in as a function. -/
abbrev Embedding := List ℚ

/-- Modelled from the spec (§3): a document is
`{id, text, metadata: string→string}`. -/
structure Document where
  id : String
  text : String
  metadata : List (String × String)
deriving DecidableEq, Repr

/-- Modelled from the spec (§3, §4.1, §4.2): both keyed stores (Document
Store and Vector Index) overwrite the existing entry for a key in place
(keeping its position, so tie breaking by insertion order is preserved)
and append an unseen key at the end (last-write-wins by call order). -/
def upsert {β : Type} (l : List (String × β)) (key : String) (v : β) :
    List (String × β) :=
  if ∃ p ∈ l, p.1 = key then
    l.map (fun p => if p.1 = key then (key, v) else p)
  else
    l ++ [(key, v)]

/-- Modelled from the spec (§4.1): keyed lookup, `none` when the key is
absent (the spec's `NotFoundError`). -/
def getEntry {β : Type} : List (String × β) → String → Option β
  | [], _ => none
  | p :: rest, key => if p.1 = key then some p.2 else getEntry rest key

/-- Modelled from the spec (§4.2): `insert(id, embedding)` on the Vector
Index replaces any existing entry for `id`; a new id is appended. -/
def insertEntry (entries : List (String × Embedding)) (id : String)
    (e : Embedding) : List (String × Embedding) :=
  upsert entries id e

/-- Ranking relation of the Vector Index: `a` precedes `b` when `a`'s
score is at least `b`'s (descending-score order). -/
def scoreGE (a b : String × ℚ) : Prop := b.2 ≤ a.2

instance : DecidableRel scoreGE :=
  fun a b => inferInstanceAs (Decidable (b.2 ≤ a.2))

instance : IsTotal (String × ℚ) scoreGE :=
  ⟨fun a b => le_total b.2 a.2⟩

instance : IsTrans (String × ℚ) scoreGE :=
  ⟨fun _ _ _ hab hbc => le_trans hbc hab⟩

/-- Modelled from the spec (§4.2): `search(queryEmbedding, k)` scores every
entry, orders by descending score with a stable sort (ties broken by
insertion order), and returns up to `k` `(id, score)` pairs; on an empty
index it returns the empty sequence. The similarity measure (the spec's
cosine similarity) is an arithmetic detail with no code in the repository,
so it is passed in as the function `sim`. -/
def search (sim : Embedding → Embedding → ℚ)
    (entries : List (String × Embedding)) (q : Embedding) (k : Nat) :
    List (String × ℚ) :=
  (List.insertionSort scoreGE (entries.map (fun p => (p.1, sim q p.2)))).take k

/-- Modelled from the spec (§4.1): the Document Store maps ids to
documents; storing overwrites any existing entry for the id. -/
def putStore (store : List (String × Document)) (d : Document) :
    List (String × Document) :=
  upsert store d.id d

/-- Modelled from the spec (§2, §4.6): the state the `index` operation
mutates — the Document Store and the Vector Index. -/
structure CoreState where
  store : List (String × Document)
  index : List (String × Embedding)
deriving DecidableEq

/-- Modelled from the spec (§4.6): indexing one document stores it in the
Document Store and inserts its embedding into the Vector Index. -/
def indexDoc (embed : String → Embedding) (s : CoreState) (d : Document) :
    CoreState :=
  { store := putStore s.store d
    index := insertEntry s.index d.id (embed d.text) }

/-- Modelled from the spec (§4.3): `retrieve(query, k)` embeds the query,
searches the Vector Index, and resolves each returned id back to its
Document; an id that no longer resolves is dropped silently and retrieval
continues with the remainder. -/
def retrieve (embed : String → Embedding) (sim : Embedding → Embedding → ℚ)
    (store : List (String × Document)) (entries : List (String × Embedding))
    (query : String) (k : Nat) : List (Document × ℚ) :=
  (search sim entries (embed query) k).filterMap
    (fun p => (getEntry store p.1).map (fun d => (d, p.2)))

/-- Modelled from the spec (§4.1, §7): the validation errors of `put`. -/
inductive ValidationError where
  | emptyId (d : Document) : ValidationError
  | emptyText (d : Document) : ValidationError
deriving DecidableEq, Repr

/-- Modelled from the spec (§4.1): `put` validates that `id` and `text`
are non-empty. -/
def validate (d : Document) : Option ValidationError :=
  if d.id = "" then some (.emptyId d)
  else if d.text = "" then some (.emptyText d)
  else none

/-- Modelled from the spec (§4.1): `put(document)` validates, then
stores/overwrites; fails with a `ValidationError` when validation does. -/
def put (store : List (String × Document)) (d : Document) :
    Except ValidationError (List (String × Document)) :=
  match validate d with
  | some e => .error e
  | none => .ok (putStore store d)

/-- Modelled from the spec (§4.1): `putAll(documents)` applies `put` to
each element in order; the first failing `put` rejects the whole batch. -/
def putAll (store : List (String × Document)) (ds : List Document) :
    Except ValidationError (List (String × Document)) :=
  ds.foldlM put store

/-- The first validation error in a batch, in order. -/
def firstError (ds : List Document) : Option ValidationError :=
  ds.findSome? validate

/-- Modelled from the spec (§4.1, §7): the store a reader sees after a
`putAll` call — the new store when the batch committed, the untouched
original when the batch was rejected (all-or-nothing ingestion). -/
def visibleAfterPutAll (store : List (String × Document))
    (ds : List Document) : List (String × Document) :=
  match putAll store ds with
  | .ok s2 => s2
  | .error _ => store

/-- Modelled from the spec (§4.6): the orchestrator's `index(documents)`
delegates to Document Store `putAll`, then performs a Vector Index
`insert` for each document; it fails the whole call if any document fails
validation, so no insert happens on a rejected batch. -/
def indexBatch (embed : String → Embedding) (s : CoreState)
    (ds : List Document) : Except ValidationError CoreState :=
  match putAll s.store ds with
  | .error e => .error e
  | .ok store2 =>
      .ok { store := store2
            index := ds.foldl
              (fun idx d => insertEntry idx d.id (embed d.text)) s.index }

/-- Modelled from the spec (§4.1, §7): the state a reader sees after an
`index` call — the new state when the batch committed, the untouched
original (Document Store and Vector Index both) when it was rejected. -/
def visibleAfterIndexBatch (embed : String → Embedding) (s : CoreState)
    (ds : List Document) : CoreState :=
  match indexBatch embed s ds with
  | .ok s2 => s2
  | .error _ => s

/-- An embedder with a fixed one-dimensional output (used to instantiate
the core theorems at concrete inputs). -/
def demoEmbed : String → Embedding := fun _ => [1]

/-- A constant similarity measure (used to instantiate the core theorems
at concrete inputs). -/
def demoSim : Embedding → Embedding → ℚ := fun _ _ => 1

/-- A concrete valid document. -/
def demoDoc : Document :=
  ⟨"paper-llm", "retrieval augmented language models", [("url", "https://papers.example.com/rag")]⟩

/-- The empty core state. -/
def demoState : CoreState := ⟨[], []⟩

/-- A concrete non-empty Vector Index. -/
def demoEntries : List (String × Embedding) :=
  [("paper-llm", [1]), ("paper-eval", [0])]

/-- A concrete Document Store resolving only `paper-llm`. -/
def demoStore : List (String × Document) := [("paper-llm", demoDoc)]

/-- A batch whose second document has an empty id (fails validation). -/
def demoBadBatch : List Document :=
  [⟨"paper-llm", "retrieval augmented language models", []⟩,
   ⟨"", "evaluation metrics", []⟩]

end Core

end Anno

namespace Anno

open ExtractTrafilatura

/-- Claim C1: for every input HTML string, if the extraction step fails
(`trafilatura.extract` raises or returns `None`), the filter prints exactly
the empty JSON object `{}` and does not crash. -/
theorem extract_failure_emits_empty_object (tr : Trafilatura) (html : String)
    (h : tr.extract html = .exn ∨ tr.extract html = .ok none) :
    mainOutput tr html = [Json.obj []] := by
  unfold mainOutput mainRun
  by_cases hh : html = ""
  · simp [hh]
  · rcases h with h | h <;> simp [hh, h]

/-- Claim C1 witness: at the concrete input `"<p>x</p>"` with a library
whose `extract` raises, the filter's output is exactly `[{}]`. -/
theorem extract_failure_emits_empty_object_witness :
    mainOutput trExnAlways "<p>x</p>" = [Json.obj []] :=
  extract_failure_emits_empty_object trExnAlways "<p>x</p>" (Or.inl rfl)

/-- Claim C2: for every input HTML string on which extraction succeeds
(the input is non-empty so `main` reaches the extraction step,
`trafilatura.extract` returns a string, and the metadata extraction does
not raise), the filter prints a single JSON object whose keys are exactly
`title, text, author, date, language`: `text` holds the extracted text
string, and the other four hold what the metadata extraction produced
(`null` when the metadata dict lacks the field). -/
theorem extract_success_output_shape (tr : Trafilatura)
    (html downloaded : String) (metaOpt : Option BareMeta)
    (hrun : html ≠ "")
    (hex : tr.extract html = .ok (some downloaded))
    (hbare : tr.bare_extraction html = .ok metaOpt) :
    ∃ fields, mainOutput tr html = [Json.obj fields]
      ∧ (Json.obj fields).keys = ["title", "text", "author", "date", "language"]
      ∧ (Json.obj fields).lookup "text" = some (Json.str downloaded)
      ∧ (Json.obj fields).lookup "title"
          = some (jsonOfOpt (metaOpt.getD emptyMeta).title)
      ∧ (Json.obj fields).lookup "author"
          = some (jsonOfOpt (metaOpt.getD emptyMeta).author)
      ∧ (Json.obj fields).lookup "date"
          = some (jsonOfOpt (metaOpt.getD emptyMeta).date)
      ∧ (Json.obj fields).lookup "language"
          = some (jsonOfOpt (metaOpt.getD emptyMeta).lang) := by
  refine ⟨[("title", jsonOfOpt (metaOpt.getD emptyMeta).title),
           ("text", Json.str downloaded),
           ("author", jsonOfOpt (metaOpt.getD emptyMeta).author),
           ("date", jsonOfOpt (metaOpt.getD emptyMeta).date),
           ("language", jsonOfOpt (metaOpt.getD emptyMeta).lang)],
          ?_, rfl, rfl, rfl, rfl, rfl, rfl⟩
  simp [mainOutput, mainRun, hrun, hex, hbare]

/-- Claim C2 witness: at the concrete input `"<p>x</p>"` with a library
that extracts `"Body text."` and metadata with title, date and language
but no author, the printed object has exactly the five keys with the
expected values. -/
theorem extract_success_output_shape_witness :
    ∃ fields,
      mainOutput trOkFixed "<p>x</p>" = [Json.obj fields]
      ∧ (Json.obj fields).keys = ["title", "text", "author", "date", "language"]
      ∧ (Json.obj fields).lookup "text" = some (Json.str "Body text.")
      ∧ (Json.obj fields).lookup "title" = some (Json.str "A Title")
      ∧ (Json.obj fields).lookup "author" = some Json.null
      ∧ (Json.obj fields).lookup "date" = some (Json.str "2024-01-01")
      ∧ (Json.obj fields).lookup "language" = some (Json.str "en") :=
  extract_success_output_shape trOkFixed "<p>x</p>" "Body text."
    (some ⟨some "A Title", none, some "2024-01-01", some "en"⟩)
    (by decide) rfl rfl

/-- Claim C9: if the `trafilatura` import fails, the filter prints exactly
`{}` and exits with status 0, for every input. -/
theorem import_failure_emits_empty_object (html : String) :
    programRun none html = ([Json.obj []], 0) := rfl

/-- Claim C10: on the empty stdin input the filter prints exactly `{}` and
makes no call into the extraction library at all. -/
theorem empty_input_emits_empty_object (tr : Trafilatura) :
    mainRun tr "" = ([], [Json.obj []]) := by
  simp [mainRun]

end Anno

namespace Anno

open AcademicDigest

/-- Claim C3: the demo's index request body conforms to the documented
`POST /v1/semantic/index` shape, holds exactly two documents with ids
`paper-llm` and `paper-eval`, whose texts contain the phrases
"retrieval augmented language models" and
"evaluation metrics for agent coordination" respectively, each with a
string-to-string metadata mapping containing `url`. -/
theorem index_request_body_conforms :
    specIndexRequestShape DOCUMENTS = true
    ∧ docField DOCUMENTS "id"
        = [some (Json.str "paper-llm"), some (Json.str "paper-eval")]
    ∧ docField DOCUMENTS "text"
        = [some (Json.str "This paper explores retrieval augmented language models for domain adaptation."),
           some (Json.str "We propose evaluation metrics for agent coordination in multi-step tasks.")]
    ∧ hasPhrase "This paper explores retrieval augmented language models for domain adaptation."
        "retrieval augmented language models"
    ∧ hasPhrase "We propose evaluation metrics for agent coordination in multi-step tasks."
        "evaluation metrics for agent coordination"
    ∧ docMetaUrl DOCUMENTS
        = [some (Json.str "https://papers.example.com/rag"),
           some (Json.str "https://papers.example.com/eval")] :=
  ⟨rfl, rfl, rfl,
   ⟨"This paper explores ", " for domain adaptation.", rfl⟩,
   ⟨"We propose ", " in multi-step tasks.", rfl⟩, rfl⟩

/-- Claim C4: the demo's RAG request body conforms to the documented
`POST /v1/semantic/rag` shape (keys exactly `query`, `sessionId`, `k`,
`summaryLevels`), and satisfies the orchestrator's preconditions: its `k`
is at least 1 and its `summaryLevels` list is non-empty, so the request is
never one the spec says fails with `InvalidArgumentError`. -/
theorem rag_request_body_conforms :
    specRagRequestShape ragRequest = true
    ∧ (∃ n, ragK ragRequest = some n ∧ 1 ≤ n)
    ∧ (∃ levels, ragSummaryLevels ragRequest = some levels ∧ levels ≠ []) :=
  ⟨rfl, ⟨2, rfl, by norm_num⟩, ⟨[Json.str "paragraph"], rfl, by simp⟩⟩

/-- Claim C5: the demo's citation-printing loop is total on every citation
list whose elements each have an `id` field and a numeric `score` field:
the `url` access is guarded with a default (`cite.get('url', '')`) and the
loop never raises, whether or not `url` is present. -/
theorem citation_loop_total (cites : List Json)
    (h : ∀ cite ∈ cites, (cite.lookup "id").isSome
          ∧ ∃ n : Int, cite.lookup "score" = some (Json.num n)) :
    (printCitations cites).isSome := by
  induction cites with
  | nil => rfl
  | cons c rest ih =>
    obtain ⟨hc, hrest⟩ := List.forall_mem_cons.mp h
    obtain ⟨hid, n, hscore⟩ := hc
    obtain ⟨idv, hidv⟩ := Option.isSome_iff_exists.mp hid
    have hrow : citationRow c = some (idv, toString n ++ ".00",
        (c.lookup "url").getD (Json.str "")) := by
      simp [citationRow, hidv, hscore]
    obtain ⟨rows, hrows⟩ := Option.isSome_iff_exists.mp (ih hrest)
    simp only [printCitations] at hrows ⊢
    rw [List.mapM_cons, hrow, hrows]
    rfl

/-- Claim C5 witness: the loop succeeds on a concrete citation that has
`id` and `score` but no `url`. -/
theorem citation_loop_total_witness :
    (printCitations demoCitations).isSome :=
  citation_loop_total demoCitations (by
    intro cite hc
    simp only [demoCitations, List.mem_singleton] at hc
    subst hc
    exact ⟨rfl, 1, rfl⟩)

end Anno

namespace Anno

open Core

/-- A map that fixes every member of a list leaves the list unchanged. -/
theorem map_eq_self_of_mem {α : Type} (l : List α) (f : α → α)
    (h : ∀ a ∈ l, f a = a) : l.map f = l := by
  induction l with
  | nil => rfl
  | cons a rest ih =>
    rw [List.map_cons, h a (List.mem_cons_self a rest),
        ih (fun b hb => h b (List.mem_cons_of_mem a hb))]

/-- Upserting the same key-value pair twice equals upserting it once. -/
theorem upsert_upsert {β : Type} (l : List (String × β)) (key : String)
    (v : β) : upsert (upsert l key v) key v = upsert l key v := by
  unfold upsert
  by_cases h : ∃ p ∈ l, p.1 = key
  · rw [if_pos h]
    have h2 : ∃ p ∈ l.map (fun p => if p.1 = key then (key, v) else p),
        p.1 = key := by
      obtain ⟨p, hp, hpk⟩ := h
      exact ⟨(key, v), List.mem_map.mpr ⟨p, hp, by rw [if_pos hpk]⟩, rfl⟩
    rw [if_pos h2, List.map_map]
    congr 1
    funext p
    by_cases hp : p.1 = key <;> simp [Function.comp, hp]
  · rw [if_neg h]
    have h2 : ∃ p ∈ l ++ [(key, v)], p.1 = key :=
      ⟨(key, v), List.mem_append_right l (List.mem_singleton_self _), rfl⟩
    rw [if_pos h2, List.map_append]
    have h3 : l.map (fun p => if p.1 = key then (key, v) else p) = l :=
      map_eq_self_of_mem l _ (fun p hp => if_neg (fun hpk => h ⟨p, hp, hpk⟩))
    rw [h3]
    simp

/-- After an upsert into a list holding at most one entry for the key, the
list holds exactly one entry for the key. -/
theorem countP_upsert {β : Type} (l : List (String × β)) (key : String)
    (v : β) (h : l.countP (fun p => decide (p.1 = key)) ≤ 1) :
    (upsert l key v).countP (fun p => decide (p.1 = key)) = 1 := by
  unfold upsert
  by_cases hx : ∃ p ∈ l, p.1 = key
  · rw [if_pos hx, List.countP_map]
    have h1 : 0 < l.countP (fun p => decide (p.1 = key)) := by
      obtain ⟨p, hp, hpk⟩ := hx
      exact List.countP_pos_iff.mpr ⟨p, hp, by simpa using hpk⟩
    have h2 : l.countP ((fun p => decide (p.1 = key))
          ∘ (fun p => if p.1 = key then (key, v) else p))
        = l.countP (fun p => decide (p.1 = key)) := by
      apply List.countP_congr
      intro p _
      by_cases hpk : p.1 = key <;> simp [Function.comp, hpk]
    omega
  · rw [if_neg hx, List.countP_append]
    have h0 : l.countP (fun p => decide (p.1 = key)) = 0 := by
      apply List.countP_eq_zero.mpr
      intro p hp
      simp only [decide_eq_true_eq]
      exact fun hpk => hx ⟨p, hp, hpk⟩
    rw [h0]
    simp

/-- `getEntry` over an append looks in the left list first. -/
theorem getEntry_append {β : Type} (l1 l2 : List (String × β))
    (key : String) :
    getEntry (l1 ++ l2) key =
      match getEntry l1 key with
      | some v => some v
      | none => getEntry l2 key := by
  induction l1 with
  | nil => rfl
  | cons p rest ih =>
    by_cases hp : p.1 = key <;> simp [getEntry, hp, ih]

/-- Overwriting every entry of the key with `(key, v)` makes the lookup of
the key return `v` exactly when it previously returned anything. -/
theorem getEntry_map_overwrite {β : Type} (l : List (String × β))
    (key : String) (v : β) :
    getEntry (l.map (fun p => if p.1 = key then (key, v) else p)) key =
      match getEntry l key with
      | some _ => some v
      | none => none := by
  induction l with
  | nil => rfl
  | cons p rest ih =>
    by_cases hp : p.1 = key
    · simp [getEntry, hp]
    · simp [getEntry, hp, ih]

/-- Overwriting the entries of one key does not change lookups of other
keys. -/
theorem getEntry_map_overwrite_ne {β : Type} (l : List (String × β))
    (key x : String) (v : β) (hx : x ≠ key) :
    getEntry (l.map (fun p => if p.1 = key then (key, v) else p)) x
      = getEntry l x := by
  induction l with
  | nil => rfl
  | cons p rest ih =>
    by_cases hp : p.1 = key
    · have hpx : p.1 ≠ x := by rw [hp]; exact fun hkx => hx hkx.symm
      have hkx : key ≠ x := fun hkx => hx hkx.symm
      simp [getEntry, hp, hpx, hkx, ih]
    · simp [getEntry, hp, ih]

/-- A key one of whose entries is in the list has a successful lookup. -/
theorem getEntry_isSome_of_mem {β : Type} (l : List (String × β))
    (key : String) (h : ∃ p ∈ l, p.1 = key) : (getEntry l key).isSome := by
  induction l with
  | nil =>
    obtain ⟨p, hp, _⟩ := h
    exact absurd hp (List.not_mem_nil p)
  | cons p rest ih =>
    by_cases hp : p.1 = key
    · simp [getEntry, hp]
    · obtain ⟨q, hq, hqk⟩ := h
      rcases List.mem_cons.mp hq with rfl | hq2
      · exact absurd hqk hp
      · simpa [getEntry, hp] using ih ⟨q, hq2, hqk⟩

/-- A key none of whose entries is in the list has a failing lookup. -/
theorem getEntry_eq_none_of_not_mem {β : Type} (l : List (String × β))
    (key : String) (h : ¬ ∃ p ∈ l, p.1 = key) : getEntry l key = none := by
  induction l with
  | nil => rfl
  | cons p rest ih =>
    have hp : p.1 ≠ key := fun hpk => h ⟨p, List.mem_cons_self p rest, hpk⟩
    simpa [getEntry, hp] using
      ih (fun hex => h (by
        obtain ⟨q, hq, hqk⟩ := hex
        exact ⟨q, List.mem_cons_of_mem p hq, hqk⟩))

/-- Looking a key up right after upserting it returns the new value. -/
theorem getEntry_upsert_self {β : Type} (l : List (String × β))
    (key : String) (v : β) : getEntry (upsert l key v) key = some v := by
  unfold upsert
  by_cases hx : ∃ p ∈ l, p.1 = key
  · rw [if_pos hx, getEntry_map_overwrite]
    obtain ⟨w, hw⟩ := Option.isSome_iff_exists.mp (getEntry_isSome_of_mem l key hx)
    rw [hw]
  · rw [if_neg hx, getEntry_append, getEntry_eq_none_of_not_mem l key hx]
    simp [getEntry]

/-- Upserting one key does not change lookups of other keys. -/
theorem getEntry_upsert_ne {β : Type} (l : List (String × β))
    (key x : String) (v : β) (hx : x ≠ key) :
    getEntry (upsert l key v) x = getEntry l x := by
  unfold upsert
  by_cases hmem : ∃ p ∈ l, p.1 = key
  · rw [if_pos hmem, getEntry_map_overwrite_ne l key x v hx]
  · rw [if_neg hmem, getEntry_append]
    cases hgl : getEntry l x with
    | some w => rfl
    | none =>
      have hkx : key ≠ x := fun hkx => hx hkx.symm
      simp [getEntry, hkx]

/-- An upsert never makes a previously successful lookup fail. -/
theorem getEntry_upsert_isSome {β : Type} (l : List (String × β))
    (key x : String) (v : β) (hx : (getEntry l x).isSome) :
    (getEntry (upsert l key v) x).isSome := by
  by_cases hxk : x = key
  · subst hxk
    rw [getEntry_upsert_self]
    rfl
  · rw [getEntry_upsert_ne l key x v hxk]
    exact hx

/-- Claim C6: indexing a document twice leaves the Vector Index with
exactly one entry for its id (given the invariant that the index held at
most one entry for it beforehand), the state after the second indexing
equals the state after the first, and search behaves identically to
having indexed it once. -/
theorem indexing_idempotent (embed : String → Embedding) (s : CoreState)
    (d : Document)
    (h : s.index.countP (fun p => decide (p.1 = d.id)) ≤ 1) :
    indexDoc embed (indexDoc embed s d) d = indexDoc embed s d
    ∧ (indexDoc embed (indexDoc embed s d) d).index.countP
        (fun p => decide (p.1 = d.id)) = 1
    ∧ ∀ sim q k,
        search sim (indexDoc embed (indexDoc embed s d) d).index q k
          = search sim (indexDoc embed s d).index q k := by
  have hstate : indexDoc embed (indexDoc embed s d) d = indexDoc embed s d := by
    simp [indexDoc, insertEntry, putStore, upsert_upsert]
  refine ⟨hstate, ?_, fun sim q k => by rw [hstate]⟩
  rw [hstate]
  exact countP_upsert s.index d.id (embed d.text) h

/-- Claim C6 witness: indexing the concrete document twice into the empty
state equals indexing it once, the index then holds exactly one entry for
its id, and a concrete search is identical. -/
theorem indexing_idempotent_witness :
    indexDoc demoEmbed (indexDoc demoEmbed demoState demoDoc) demoDoc
      = indexDoc demoEmbed demoState demoDoc
    ∧ (indexDoc demoEmbed (indexDoc demoEmbed demoState demoDoc)
        demoDoc).index.countP (fun p => decide (p.1 = demoDoc.id)) = 1
    ∧ search demoSim
        (indexDoc demoEmbed (indexDoc demoEmbed demoState demoDoc)
          demoDoc).index [1] 2
        = search demoSim (indexDoc demoEmbed demoState demoDoc).index [1]
            2 := by
  obtain ⟨h1, h2, h3⟩ :=
    indexing_idempotent demoEmbed demoState demoDoc (by decide)
  exact ⟨h1, h2, h3 demoSim [1] 2⟩

/-- Claim C7: for every `k ≥ 1` and non-empty index, `retrieve(query, k)`
returns at most `k` results, ordered by non-increasing score. -/
theorem retrieve_at_most_k_and_sorted (embed : String → Embedding)
    (sim : Embedding → Embedding → ℚ) (store : List (String × Document))
    (entries : List (String × Embedding)) (query : String) (k : Nat)
    (_hk : 1 ≤ k) (_hne : entries ≠ []) :
    (retrieve embed sim store entries query k).length ≤ k
    ∧ (retrieve embed sim store entries query k).Pairwise
        (fun a b => b.2 ≤ a.2) := by
  constructor
  · have h1 : (retrieve embed sim store entries query k).length
        ≤ (search sim entries (embed query) k).length :=
      List.length_filterMap_le _ _
    have h2 : (search sim entries (embed query) k).length ≤ k := by
      unfold search
      exact List.length_take_le _ _
    omega
  · have hsorted : (search sim entries (embed query) k).Pairwise scoreGE := by
      unfold search
      exact List.Pairwise.sublist (List.take_sublist _ _)
        (List.sorted_insertionSort scoreGE _)
    unfold retrieve
    refine List.Pairwise.filterMap _ ?_ hsorted
    intro a a' hr b hb b' hb'
    simp only [Option.mem_def, Option.map_eq_some'] at hb hb'
    obtain ⟨da, _, rfl⟩ := hb
    obtain ⟨db, _, rfl⟩ := hb'
    exact hr

/-- Claim C7 witness: retrieving from a concrete two-entry index with
`k = 2` yields at most two results in non-increasing score order. -/
theorem retrieve_at_most_k_and_sorted_witness :
    (retrieve demoEmbed demoSim demoStore demoEntries "retrieval" 2).length ≤ 2
    ∧ (retrieve demoEmbed demoSim demoStore demoEntries "retrieval"
        2).Pairwise (fun a b => b.2 ≤ a.2) :=
  retrieve_at_most_k_and_sorted demoEmbed demoSim demoStore demoEntries
    "retrieval" 2 (by norm_num) (by simp [demoEntries])

/-- `Except` bind short-circuits on an error. -/
theorem except_bind_error {ε α β : Type} (e : ε) (f : α → Except ε β) :
    (Except.error e >>= f) = Except.error e := rfl

/-- `Except` bind passes a success to the continuation. -/
theorem except_bind_ok {ε α β : Type} (a : α) (f : α → Except ε β) :
    (Except.ok a >>= f) = f a := rfl

/-- A committed `putAll` never makes a previously successful Document
Store lookup fail. -/
theorem getEntry_putAll_isSome (ds : List Document)
    (store s2 : List (String × Document)) (x : String)
    (hres : putAll store ds = .ok s2)
    (hx : (getEntry store x).isSome) : (getEntry s2 x).isSome := by
  induction ds generalizing store with
  | nil =>
    simp only [putAll, List.foldlM_nil] at hres
    cases hres
    exact hx
  | cons d rest ih =>
    rw [putAll, List.foldlM_cons] at hres
    cases hv : validate d with
    | some e0 =>
      rw [show put store d = Except.error e0 by simp [put, hv],
        except_bind_error] at hres
      exact Except.noConfusion hres
    | none =>
      rw [show put store d = Except.ok (putStore store d) by simp [put, hv],
        except_bind_ok] at hres
      exact ih (putStore store d) hres
        (by unfold putStore; exact getEntry_upsert_isSome store d.id x d hx)

/-- `putAll` commits the whole batch when every document validates, and
rejects it with the first validation error otherwise. -/
theorem putAll_spec (store : List (String × Document)) (ds : List Document) :
    (firstError ds = none →
      ∃ s2, putAll store ds = .ok s2 ∧ ∀ d ∈ ds, (getEntry s2 d.id).isSome)
    ∧ (∀ e, firstError ds = some e → putAll store ds = .error e) := by
  induction ds generalizing store with
  | nil =>
    refine ⟨fun _ => ⟨store, rfl, by simp⟩, fun e he => ?_⟩
    simp [firstError] at he
  | cons d rest ih =>
    cases hv : validate d with
    | some e0 =>
      constructor
      · intro hnone
        simp [firstError, List.findSome?_cons, hv] at hnone
      · intro e he
        simp only [firstError, List.findSome?_cons, hv] at he
        cases he
        rw [putAll, List.foldlM_cons,
          show put store d = Except.error e0 by simp [put, hv],
          except_bind_error]
    | none =>
      have hfe : firstError (d :: rest) = firstError rest := by
        simp [firstError, List.findSome?_cons, hv]
      have hstep : putAll store (d :: rest)
          = putAll (putStore store d) rest := by
        unfold putAll
        rw [List.foldlM_cons,
          show put store d = Except.ok (putStore store d) by simp [put, hv],
          except_bind_ok]
      constructor
      · intro hnone
        obtain ⟨s2, hs2, hall⟩ :=
          (ih (putStore store d)).1 (by rw [← hfe]; exact hnone)
        refine ⟨s2, by rw [hstep]; exact hs2, ?_⟩
        intro x hx
        rcases List.mem_cons.mp hx with hxd | hx2
        · subst hxd
          exact getEntry_putAll_isSome rest (putStore store x) s2 x.id hs2
            (by unfold putStore; rw [getEntry_upsert_self]; rfl)
        · exact hall x hx2
      · intro e he
        rw [hstep]
        exact (ih (putStore store d)).2 e (by rw [← hfe]; exact he)

/-- Claim C8: the orchestrator's index call (`putAll` then the Vector
Index inserts) is all-or-nothing over a batch: when every document
validates, the call succeeds and every document of the batch is stored;
otherwise the batch is rejected with the first validation error and the
visible state — Document Store and Vector Index both — is unchanged. -/
theorem index_batch_all_or_nothing (embed : String → Embedding)
    (s : CoreState) (ds : List Document) :
    (firstError ds = none →
      ∃ s2, indexBatch embed s ds = .ok s2
        ∧ ∀ d ∈ ds, (getEntry s2.store d.id).isSome)
    ∧ (∀ e, firstError ds = some e →
        indexBatch embed s ds = .error e
        ∧ visibleAfterIndexBatch embed s ds = s) := by
  constructor
  · intro hnone
    obtain ⟨s2, hs2, hall⟩ := (putAll_spec s.store ds).1 hnone
    exact ⟨{ store := s2
             index := ds.foldl
               (fun idx d => insertEntry idx d.id (embed d.text)) s.index },
           by unfold indexBatch; rw [hs2], hall⟩
  · intro e he
    have herr : putAll s.store ds = .error e := (putAll_spec s.store ds).2 e he
    have hbatch : indexBatch embed s ds = .error e := by
      unfold indexBatch
      rw [herr]
    exact ⟨hbatch, by unfold visibleAfterIndexBatch; rw [hbatch]⟩

/-- Claim C8 witness: a concrete batch whose second document has an empty
id is rejected with that document's validation error, and the visible
state equals the original state. -/
theorem index_batch_all_or_nothing_witness :
    indexBatch demoEmbed demoState demoBadBatch
      = .error (ValidationError.emptyId ⟨"", "evaluation metrics", []⟩)
    ∧ visibleAfterIndexBatch demoEmbed demoState demoBadBatch
      = demoState :=
  (index_batch_all_or_nothing demoEmbed demoState demoBadBatch).2
    (ValidationError.emptyId ⟨"", "evaluation metrics", []⟩) rfl

end Anno
